import Mathlib

/-!
Verification development for the timesheet application
(`timesheet.app.py`).  The storage layer is a single SQLite table

  timesheet(id INTEGER PRIMARY KEY AUTOINCREMENT,
            work_date TEXT UNIQUE, hours_worked REAL, month_name TEXT)

modelled as a list of rows kept in rowid (= id) order together with the
AUTOINCREMENT counter.  Dates are the ISO `YYYY-MM-DD` strings produced by
`date.strftime("%Y-%m-%d")`; `datetime.strptime(s, "%Y-%m-%d")` is modelled
by `parseDate`.  Hours (SQLite REAL) are modelled as rationals: the code
stores and retrieves hour values but never computes with them, so no
floating-point rounding can occur.
-/

namespace Timesheet

/-- Calendar date as held by Python's `datetime.date`. -/
structure Date where
  year : Nat
  month : Nat
  day : Nat
deriving DecidableEq, Repr

/-- Gregorian leap-year rule, as used by `datetime`. -/
def isLeap (y : Nat) : Bool :=
  (y % 4 == 0 && y % 100 != 0) || y % 400 == 0

/-- Number of days in a month, as validated by `datetime`. -/
def daysInMonth (y m : Nat) : Nat :=
  if m == 2 then (if isLeap y then 29 else 28)
  else if m == 4 || m == 6 || m == 9 || m == 11 then 30
  else 31

/-- The dates representable by `datetime.date` (year 1--9999, real
calendar day).  These are exactly the values the Streamlit date picker
can produce. -/
def Date.valid (d : Date) : Prop :=
  1 ≤ d.year ∧ d.year ≤ 9999 ∧ 1 ≤ d.month ∧ d.month ≤ 12 ∧
    1 ≤ d.day ∧ d.day ≤ daysInMonth d.year d.month

instance (d : Date) : Decidable d.valid := by
  unfold Date.valid; infer_instance

/-- English month name, as produced by `strftime("%B")` in the C locale. -/
def monthName (m : Nat) : String :=
  if m == 1 then "January"
  else if m == 2 then "February"
  else if m == 3 then "March"
  else if m == 4 then "April"
  else if m == 5 then "May"
  else if m == 6 then "June"
  else if m == 7 then "July"
  else if m == 8 then "August"
  else if m == 9 then "September"
  else if m == 10 then "October"
  else if m == 11 then "November"
  else "December"

/-- Decimal digit character. -/
def digitChar (n : Nat) : Char := Char.ofNat (48 + n)

/-- Two-digit zero-padded decimal rendering (`%m`, `%d`). -/
def pad2 (n : Nat) : List Char :=
  [digitChar (n / 10 % 10), digitChar (n % 10)]

/-- Four-digit zero-padded decimal rendering (`%Y`). -/
def pad4 (n : Nat) : List Char :=
  [digitChar (n / 1000 % 10), digitChar (n / 100 % 10),
   digitChar (n / 10 % 10), digitChar (n % 10)]

/-- Model of `input_date.strftime("%Y-%m-%d")`: the ISO text stored in `work_date`. -/
def formatDate (d : Date) : String :=
  ⟨pad4 d.year ++ '-' :: pad2 d.month ++ '-' :: pad2 d.day⟩

/-- Split a character list at every `'-'`. -/
def splitDash : List Char → List (List Char)
  | [] => [[]]
  | c :: cs =>
    let rest := splitDash cs
    if c = '-' then [] :: rest
    else
      match rest with
      | [] => [[c]]
      | p :: ps => (c :: p) :: ps

/-- All characters are decimal digits. -/
def allDigits (l : List Char) : Bool := l.all (fun c => c.isDigit)

/-- Decimal value of a digit string. -/
def toNatL (l : List Char) : Nat :=
  l.foldl (fun a c => a * 10 + (c.toNat - 48)) 0

/-- Model of `datetime.strptime(s, "%Y-%m-%d")`: `%Y` matches exactly four digits,
`%m` and `%d` one or two digits; the resulting numbers must form a valid
`datetime.date`.  `none` models the `ValueError` raised on mismatch. -/
def parseDate (s : String) : Option Date :=
  match splitDash s.toList with
  | [ys, ms, ds] =>
    if ys.length == 4 && allDigits ys &&
        decide (1 ≤ ms.length) && ms.length ≤ 2 && allDigits ms &&
        decide (1 ≤ ds.length) && ds.length ≤ 2 && allDigits ds then
      let y := toNatL ys
      let m := toNatL ms
      let d := toNatL ds
      if 1 ≤ y ∧ 1 ≤ m ∧ m ≤ 12 ∧ 1 ≤ d ∧ d ≤ daysInMonth y m then
        some ⟨y, m, d⟩
      else none
    else none
  | _ => none

/-- One row of the `timesheet` table. -/
structure Row where
  id : Nat
  work_date : String
  hours_worked : ℚ
  month_name : String
deriving DecidableEq, Repr

/-- The database: rows in rowid order plus the AUTOINCREMENT counter. -/
structure DB where
  rows : List Row
  next_id : Nat
deriving DecidableEq, Repr

/-- State after `create_table` on a fresh file: empty table, AUTOINCREMENT starts at 1. -/
def emptyDB : DB := ⟨[], 1⟩

/-- Insert a row into a rowid-ordered list, keeping the order (how the
SQLite B-tree stores a row with a given id). -/
def insertById (a : Row) : List Row → List Row
  | [] => [a]
  | b :: bs => if a.id ≤ b.id then a :: b :: bs else b :: insertById a bs

/-- Model of `add_data(work_date, hours_worked, month_name)`:

  INSERT OR REPLACE INTO timesheet (id, work_date, hours_worked, month_name)
  VALUES ((SELECT id FROM timesheet WHERE work_date = ?), ?, ?, ?)

The scalar subquery yields the existing id for that date (NULL if none, in
which case AUTOINCREMENT assigns `next_id`).  `OR REPLACE` deletes every
row conflicting on the primary key or on the UNIQUE `work_date` column,
then inserts the new row. -/
def add_data (wd : String) (h : ℚ) (mn : String) (db : DB) : DB :=
  match db.rows.find? (fun r => r.work_date == wd) with
  | some old =>
    { rows := insertById ⟨old.id, wd, h, mn⟩
        (db.rows.filter (fun r => !(r.work_date == wd) && !(r.id == old.id))),
      next_id := db.next_id }
  | none =>
    { rows := insertById ⟨db.next_id, wd, h, mn⟩
        (db.rows.filter (fun r => !(r.work_date == wd) && !(r.id == db.next_id))),
      next_id := db.next_id + 1 }

/-- Model of `get_months()`: SELECT DISTINCT month_name FROM timesheet ORDER BY
month_name.  SQLite's default BINARY collation orders text bytewise, which
agrees with Lean's `String` order on these ASCII names. -/
def get_months (db : DB) : List String :=
  List.insertionSort (fun a b => a ≤ b) (db.rows.map (fun r => r.month_name)).dedup

/-- Rowid-order comparison key used by `ORDER BY work_date`. -/
def byDate (a b : Row) : Prop := a.work_date ≤ b.work_date

instance : DecidableRel byDate := fun a b => by
  unfold byDate; infer_instance

instance : IsTotal Row byDate :=
  ⟨fun a b => le_total a.work_date b.work_date⟩

instance : IsTrans Row byDate :=
  ⟨fun _ _ _ hab hbc => le_trans hab hbc⟩

/-- Model of `get_timesheet_by_month(month)`: SELECT work_date, hours_worked,
month_name FROM timesheet WHERE month_name = ? ORDER BY work_date. -/
def get_timesheet_by_month (month : String) (db : DB) : List (String × ℚ × String) :=
  (List.insertionSort byDate (db.rows.filter (fun r => r.month_name == month))).map
    (fun r => (r.work_date, r.hours_worked, r.month_name))

/-- Model of `get_all_dates()`: SELECT DISTINCT work_date FROM timesheet ORDER BY
work_date. -/
def get_all_dates (db : DB) : List String :=
  List.insertionSort (fun a b => a ≤ b) (db.rows.map (fun r => r.work_date)).dedup

/-- Model of `get_hours_for_date(date_str)`: SELECT hours_worked FROM timesheet
WHERE work_date = ?, then `row[0] if row else 0.0`. -/
def get_hours_for_date (ds : String) (db : DB) : ℚ :=
  match db.rows.find? (fun r => r.work_date == ds) with
  | some r => r.hours_worked
  | none => 0

/-- Model of `update_hours_for_date(date_str, new_hours)`: recomputes the month name
with `strptime` (raising `ValueError`, modelled as `none`, on a malformed
date string), then UPDATE timesheet SET hours_worked = ?, month_name = ?
WHERE work_date = ?. -/
def update_hours_for_date (ds : String) (newHours : ℚ) (db : DB) : Option DB :=
  match parseDate ds with
  | none => none
  | some dt =>
    some { db with
      rows := db.rows.map (fun r =>
        if r.work_date == ds then
          { r with hours_worked := newHours, month_name := monthName dt.month }
        else r) }

/-- The spec's `upsert_entry(work_date, hours_worked)`: the Log Hours view
formats the picked date and derives `month_name` from it before calling
`add_data` (lines 194--202 of `timesheet.app.py`). -/
def upsert_entry (d : Date) (h : ℚ) (db : DB) : DB :=
  add_data (formatDate d) h (monthName d.month) db

/-- The spec's `set_hours(work_date, new_hours)` on a picker-produced date. -/
def set_hours (d : Date) (h : ℚ) (db : DB) : Option DB :=
  update_hours_for_date (formatDate d) h db

/-- Login session state held in `st.session_state`. -/
structure Session where
  logged_in : Bool
  username : Option String
  has_edit_access : Bool
deriving DecidableEq, Repr

/-- Initial session state (STEP 2 of `main`). -/
def initSession : Session := ⟨false, none, false⟩

/-- The login-button handler (STEP 3 of `main`): on the fixed username and
the environment password, mark the session logged in with edit access;
otherwise leave the session untouched and surface an error.  The `Bool`
component records whether `st.error` was shown. -/
def login (passwordEnv inputUser inputPass : String) (s : Session) : Session × Bool :=
  if inputUser == "raisediversity" && inputPass == passwordEnv then
    ({ logged_in := true, username := some inputUser, has_edit_access := true }, false)
  else
    (s, true)

/-- Result of the startup password check (STEP 1 of `main`). -/
inductive StartupOutcome where
  | halt
  | serve (passwordEnv : String)
deriving DecidableEq, Repr

/-- STEP 1 of `main`: `os.environ.get` yields `none` when the variable is
absent; `if not password_env` halts via `st.stop()` on `None` and on the
empty string, before any view is rendered. -/
def startup (env : Option String) : StartupOutcome :=
  match env with
  | none => .halt
  | some p => if p == "" then .halt else .serve p

/-! ### Invariants named by the spec -/

/-- Schema invariant: at most one row per `work_date` (the UNIQUE column). -/
def datesUnique (db : DB) : Prop :=
  (db.rows.map Row.work_date).Nodup

instance (db : DB) : Decidable (datesUnique db) := by
  unfold datesUnique; infer_instance

/-- Spec invariant: each row's `month_name` is the English month name
derived from its `work_date`. -/
def monthConsistent (db : DB) : Prop :=
  ∀ r ∈ db.rows, ∃ d : Date, parseDate r.work_date = some d ∧
    r.month_name = monthName d.month

/-- Spec invariant: stored hours are never negative. -/
def nonNegHours (db : DB) : Prop :=
  ∀ r ∈ db.rows, 0 ≤ r.hours_worked

/-! ### Digit and date-string lemmas -/

theorem digitChar_isDigit {k : Nat} (h : k < 10) : (digitChar k).isDigit = true := by
  interval_cases k <;> decide

theorem digitChar_ne_dash {k : Nat} (h : k < 10) : digitChar k ≠ '-' := by
  interval_cases k <;> decide

theorem digitChar_toNat {k : Nat} (h : k < 10) : (digitChar k).toNat = 48 + k := by
  interval_cases k <;> decide

theorem not_dash_pad2 (n : Nat) : '-' ∉ pad2 n := by
  intro hmem
  simp only [pad2, List.mem_cons, List.not_mem_nil, or_false] at hmem
  rcases hmem with h | h <;>
    exact digitChar_ne_dash (Nat.mod_lt _ (by omega)) h.symm

theorem not_dash_pad4 (n : Nat) : '-' ∉ pad4 n := by
  intro hmem
  simp only [pad4, List.mem_cons, List.not_mem_nil, or_false] at hmem
  rcases hmem with h | h | h | h <;>
    exact digitChar_ne_dash (Nat.mod_lt _ (by omega)) h.symm

theorem splitDash_no_dash {l : List Char} (h : '-' ∉ l) : splitDash l = [l] := by
  induction l with
  | nil => rfl
  | cons c cs ih =>
    have hc : ¬(c = '-') := fun hc => h (hc ▸ List.mem_cons_self c cs)
    have hcs : '-' ∉ cs := fun hm => h (List.mem_cons_of_mem c hm)
    simp only [splitDash, ih hcs, if_neg hc]

theorem splitDash_append {xs ys : List Char} (h : '-' ∉ xs) :
    splitDash (xs ++ '-' :: ys) = xs :: splitDash ys := by
  induction xs with
  | nil => simp [splitDash]
  | cons c cs ih =>
    have hc : ¬(c = '-') := fun hc => h (hc ▸ List.mem_cons_self c cs)
    have hcs : '-' ∉ cs := fun hm => h (List.mem_cons_of_mem c hm)
    simp only [List.cons_append, splitDash, if_neg hc, List.append_eq]
    rw [ih hcs]

theorem allDigits_pad2 (n : Nat) : allDigits (pad2 n) = true := by
  have ha := digitChar_isDigit (Nat.mod_lt (n / 10) (by omega))
  have hb := digitChar_isDigit (Nat.mod_lt n (by omega))
  simp [allDigits, pad2, ha, hb]

theorem allDigits_pad4 (n : Nat) : allDigits (pad4 n) = true := by
  have ha := digitChar_isDigit (Nat.mod_lt (n / 1000) (by omega))
  have hb := digitChar_isDigit (Nat.mod_lt (n / 100) (by omega))
  have hc := digitChar_isDigit (Nat.mod_lt (n / 10) (by omega))
  have he := digitChar_isDigit (Nat.mod_lt n (by omega))
  simp [allDigits, pad4, ha, hb, hc, he]

theorem toNatL_pad2 {n : Nat} (h : n < 100) : toNatL (pad2 n) = n := by
  simp only [toNatL, pad2, List.foldl_cons, List.foldl_nil,
    digitChar_toNat (Nat.mod_lt _ (by omega : (0:Nat) < 10))]
  omega

theorem toNatL_pad4 {n : Nat} (h : n < 10000) : toNatL (pad4 n) = n := by
  simp only [toNatL, pad4, List.foldl_cons, List.foldl_nil,
    digitChar_toNat (Nat.mod_lt _ (by omega : (0:Nat) < 10))]
  omega

theorem daysInMonth_le (y m : Nat) : daysInMonth y m ≤ 31 := by
  unfold daysInMonth
  split
  · split <;> omega
  · split <;> omega

/-- Parsing inverts formatting: parsing the stored ISO text recovers the
picked date. -/
theorem parseDate_formatDate {d : Date} (hd : d.valid) :
    parseDate (formatDate d) = some d := by
  obtain ⟨y, m, dd⟩ := d
  obtain ⟨h1, h2, h3, h4, h5, h6⟩ := hd
  have h1' : 1 ≤ y := h1
  have h2' : y ≤ 9999 := h2
  have h3' : 1 ≤ m := h3
  have h4' : m ≤ 12 := h4
  have h5' : 1 ≤ dd := h5
  have h6' : dd ≤ daysInMonth y m := h6
  have hdd31 : dd ≤ 31 := le_trans h6' (daysInMonth_le y m)
  have hsplit : splitDash (formatDate ⟨y, m, dd⟩).toList =
      [pad4 y, pad2 m, pad2 dd] := by
    show splitDash (pad4 y ++ (('-' :: pad2 m) ++ ('-' :: pad2 dd))) = _
    rw [List.cons_append, splitDash_append (not_dash_pad4 y),
      splitDash_append (not_dash_pad2 m), splitDash_no_dash (not_dash_pad2 dd)]
  have hy : toNatL (pad4 y) = y := toNatL_pad4 (by omega)
  have hm : toNatL (pad2 m) = m := toNatL_pad2 (by omega)
  have hdd : toNatL (pad2 dd) = dd := toNatL_pad2 (by omega)
  have hlen4 : (pad4 y).length = 4 := rfl
  have hlen2m : (pad2 m).length = 2 := rfl
  have hlen2d : (pad2 dd).length = 2 := rfl
  unfold parseDate
  rw [hsplit]
  simp only [hlen4, hlen2m, hlen2d, allDigits_pad2, allDigits_pad4, hy, hm, hdd]
  norm_num
  intro hcontra
  exact absurd (hcontra h1' h3' h4' h5') (by omega)

/-! ### Storage-layer lemmas -/

theorem mem_insertById {x a : Row} : ∀ {l : List Row},
    x ∈ insertById a l ↔ x = a ∨ x ∈ l := by
  intro l
  induction l with
  | nil => simp [insertById]
  | cons b bs ih =>
    by_cases hab : a.id ≤ b.id
    · simp [insertById, hab, List.mem_cons]
    · simp only [insertById, if_neg hab, List.mem_cons, ih]
      tauto

theorem find?_insertById {p : Row → Bool} {a : Row} {l : List Row}
    (hpa : p a = true) (hl : ∀ x ∈ l, p x = false) :
    (insertById a l).find? p = some a := by
  induction l with
  | nil => simp [insertById, List.find?, hpa]
  | cons b bs ih =>
    by_cases hab : a.id ≤ b.id
    · simp [insertById, hab, List.find?, hpa]
    · have hb : p b = false := hl b (List.mem_cons_self b bs)
      have hbs : ∀ x ∈ bs, p x = false := fun x hx => hl x (List.mem_cons_of_mem b hx)
      simp [insertById, hab, List.find?, hb, ih hbs]

theorem find?_row_of_nodup {rows : List Row}
    (hn : (rows.map Row.work_date).Nodup) {r : Row} (hr : r ∈ rows) :
    rows.find? (fun x => x.work_date == r.work_date) = some r := by
  induction rows with
  | nil => exact absurd hr (List.not_mem_nil r)
  | cons a as ih =>
    simp only [List.map_cons, List.nodup_cons] at hn
    rcases List.mem_cons.mp hr with h | h
    · subst h
      simp [List.find?]
    · have hne : (a.work_date == r.work_date) = false := by
        refine beq_eq_false_iff_ne.mpr fun he => hn.1 ?_
        exact he ▸ List.mem_map.mpr ⟨r, h, rfl⟩
      simp only [List.find?, hne]
      exact ih hn.2 h

/-- Membership in the rows produced by `add_data`: either the freshly
written row, or a surviving old row. -/
theorem mem_add_data {wd : String} {hq : ℚ} {mn : String} {db : DB} {r : Row}
    (h : r ∈ (add_data wd hq mn db).rows) :
    (r.work_date = wd ∧ r.hours_worked = hq ∧ r.month_name = mn) ∨ r ∈ db.rows := by
  unfold add_data at h
  rcases hfind : db.rows.find? (fun x => x.work_date == wd) with _ | old <;>
    rw [hfind] at h <;>
    rcases mem_insertById.mp h with h' | h'
  · exact Or.inl (by subst h'; exact ⟨rfl, rfl, rfl⟩)
  · exact Or.inr (List.mem_of_mem_filter h')
  · exact Or.inl (by subst h'; exact ⟨rfl, rfl, rfl⟩)
  · exact Or.inr (List.mem_of_mem_filter h')

/-- After `add_data` a lookup of the written date finds the written row. -/
theorem find?_add_data (wd : String) (hq : ℚ) (mn : String) (db : DB) :
    ∃ i : Nat, (add_data wd hq mn db).rows.find? (fun x => x.work_date == wd) =
      some ⟨i, wd, hq, mn⟩ := by
  unfold add_data
  have hkept : ∀ (j : Nat) (x : Row),
      x ∈ db.rows.filter (fun r => !(r.work_date == wd) && !(r.id == j)) →
      (x.work_date == wd) = false := by
    intro j x hx
    have := List.of_mem_filter hx
    simp only [Bool.and_eq_true, Bool.not_eq_true'] at this
    exact this.1
  rcases hfind : db.rows.find? (fun x => x.work_date == wd) with _ | old
  · rw [hfind]
    exact ⟨db.next_id, find?_insertById (by simp) (hkept db.next_id)⟩
  · rw [hfind]
    exact ⟨old.id, find?_insertById (by simp) (hkept old.id)⟩

/-- Reading back the date just written returns the hours just written. -/
theorem get_hours_add_data (wd : String) (hq : ℚ) (mn : String) (db : DB) :
    get_hours_for_date wd (add_data wd hq mn db) = hq := by
  obtain ⟨i, hfind⟩ := find?_add_data wd hq mn db
  unfold get_hours_for_date
  rw [hfind]

/-- The date just written is present among the stored dates. -/
theorem date_mem_add_data (wd : String) (hq : ℚ) (mn : String) (db : DB) :
    wd ∈ (add_data wd hq mn db).rows.map (fun r => r.work_date) := by
  unfold add_data
  rcases hfind : db.rows.find? (fun x => x.work_date == wd) with _ | old <;>
    rw [hfind] <;>
    exact List.mem_map.mpr ⟨_, mem_insertById.mpr (Or.inl rfl), rfl⟩

/-- Mapping a function that fixes every element is the identity. -/
theorem map_id_of_mem {α : Type} {f : α → α} :
    ∀ {l : List α}, (∀ a ∈ l, f a = a) → l.map f = l := by
  intro l h
  induction l with
  | nil => rfl
  | cons a as ih =>
    rw [List.map_cons, h a (List.mem_cons_self a as),
      ih fun x hx => h x (List.mem_cons_of_mem a hx)]

/-- Shape of a successful `update_hours_for_date`. -/
theorem update_rows_cases {ds : String} {hq : ℚ} {db db' : DB}
    (hup : update_hours_for_date ds hq db = some db') :
    ∃ dt : Date, parseDate ds = some dt ∧
      db'.rows = db.rows.map (fun r =>
        if r.work_date == ds then
          { r with hours_worked := hq, month_name := monthName dt.month }
        else r) ∧
      db'.next_id = db.next_id := by
  unfold update_hours_for_date at hup
  rcases hparse : parseDate ds with _ | dt <;> rw [hparse] at hup
  · exact absurd hup (by simp)
  · exact ⟨dt, rfl, by injection hup with h; rw [← h], by injection hup with h; rw [← h]⟩

/-! ### Claim theorems -/

/-- C1: for every valid date `D` and non-negative hours `H`,
`upsert_entry(D, H)` followed by `get_hours(D)` returns `H`, and after the
upsert (hence after any number of repeated upserts, the store being
arbitrary) `list_dates()` contains `D` exactly once. -/
theorem C1_upsert_get_hours_and_unique_date (D : Date) (hD : D.valid) (H : ℚ)
    (hH : 0 ≤ H) (db : DB) :
    get_hours_for_date (formatDate D) (upsert_entry D H db) = H ∧
    (get_all_dates (upsert_entry D H db)).count (formatDate D) = 1 := by
  constructor
  · exact get_hours_add_data _ _ _ _
  · unfold get_all_dates
    rw [(List.perm_insertionSort _ _).count_eq, List.count_dedup]
    have hmem : formatDate D ∈ (upsert_entry D H db).rows.map (fun r => r.work_date) :=
      date_mem_add_data _ _ _ _
    rw [if_pos hmem]

theorem C1_witness :
    Date.valid ⟨2024, 1, 5⟩ ∧ (0 : ℚ) ≤ 13/2 ∧
    get_hours_for_date (formatDate ⟨2024, 1, 5⟩)
      (upsert_entry ⟨2024, 1, 5⟩ (13/2) (upsert_entry ⟨2024, 1, 5⟩ 8 emptyDB)) = 13/2 ∧
    (get_all_dates (upsert_entry ⟨2024, 1, 5⟩ (13/2)
      (upsert_entry ⟨2024, 1, 5⟩ 8 emptyDB))).count (formatDate ⟨2024, 1, 5⟩) = 1 := by
  refine ⟨by decide, by norm_num, ?_, ?_⟩
  · exact (C1_upsert_get_hours_and_unique_date ⟨2024, 1, 5⟩ (by decide) (13/2)
      (by norm_num) (upsert_entry ⟨2024, 1, 5⟩ 8 emptyDB)).1
  · exact (C1_upsert_get_hours_and_unique_date ⟨2024, 1, 5⟩ (by decide) (13/2)
      (by norm_num) (upsert_entry ⟨2024, 1, 5⟩ 8 emptyDB)).2

/-- C2: both write operations keep every stored row's `month_name` equal to
the English month name derived from its `work_date`: the upsert writes the
name derived from the picked date, and `set_hours` recomputes the name from
the parsed date string. -/
theorem C2_writes_preserve_month_consistency (db : DB) (hdb : monthConsistent db) :
    (∀ D : Date, D.valid → ∀ H : ℚ, monthConsistent (upsert_entry D H db)) ∧
    (∀ (ds : String) (H : ℚ) (db' : DB),
      update_hours_for_date ds H db = some db' → monthConsistent db') := by
  constructor
  · intro D hD H r hr
    rcases mem_add_data hr with ⟨hwd, _, hmn⟩ | hold
    · exact ⟨D, by rw [hwd]; exact parseDate_formatDate hD, by rw [hmn]⟩
    · exact hdb r hold
  · intro ds H db' hup r hr
    obtain ⟨dt, hparse, hrows, _⟩ := update_rows_cases hup
    rw [hrows] at hr
    obtain ⟨a, ha, hfa⟩ := List.mem_map.mp hr
    by_cases hc : (a.work_date == ds) = true
    · rw [if_pos hc] at hfa
      subst hfa
      exact ⟨dt, by rw [show a.work_date = ds from eq_of_beq hc]; exact hparse, rfl⟩
    · rw [if_neg hc] at hfa
      subst hfa
      exact hdb a ha

theorem C2_witness :
    monthConsistent emptyDB ∧ Date.valid ⟨2024, 1, 5⟩ ∧
    monthConsistent (upsert_entry ⟨2024, 1, 5⟩ 8 emptyDB) := by
  have hempty : monthConsistent emptyDB := fun r hr => absurd hr (List.not_mem_nil r)
  exact ⟨hempty, by decide,
    (C2_writes_preserve_month_consistency emptyDB hempty).1 ⟨2024, 1, 5⟩ (by decide) 8⟩

/-- C3: `set_hours` on a valid date with no stored row surfaces no error and
returns the store entirely unchanged: the UPDATE matches no row. -/
theorem C3_set_hours_missing_date_noop (D : Date) (hD : D.valid) (H : ℚ) (db : DB)
    (hmiss : ∀ r ∈ db.rows, r.work_date ≠ formatDate D) :
    set_hours D H db = some db := by
  unfold set_hours update_hours_for_date
  simp only [parseDate_formatDate hD]
  have hid : ∀ r ∈ db.rows, (if r.work_date == formatDate D then
      { r with hours_worked := H, month_name := monthName D.month }
    else r) = r := by
    intro r hr
    rw [if_neg]
    simp [beq_eq_false_iff_ne.mpr (hmiss r hr)]
  rw [map_id_of_mem hid]

theorem C3_witness :
    Date.valid ⟨2099, 12, 31⟩ ∧
    set_hours ⟨2099, 12, 31⟩ 5 (upsert_entry ⟨2024, 1, 5⟩ 8 emptyDB) =
      some (upsert_entry ⟨2024, 1, 5⟩ 8 emptyDB) :=
  ⟨by decide, C3_set_hours_missing_date_noop ⟨2099, 12, 31⟩ (by decide) 5
    (upsert_entry ⟨2024, 1, 5⟩ 8 emptyDB) (by decide)⟩

/-- C4: `list_months()` is sorted ascending, duplicate-free, contains exactly
the distinct `month_name` values present, and is empty on an empty store. -/
theorem C4_get_months_sorted_distinct (db : DB) :
    (get_months db).Sorted (fun a b => a ≤ b) ∧
    (get_months db).Nodup ∧
    (∀ mn : String, mn ∈ get_months db ↔ ∃ r ∈ db.rows, r.month_name = mn) ∧
    (db.rows = [] → get_months db = []) := by
  refine ⟨List.sorted_insertionSort _ _,
    ((List.perm_insertionSort _ _).nodup_iff).mpr (List.nodup_dedup _), ?_, ?_⟩
  · intro mn
    unfold get_months
    rw [List.mem_insertionSort, List.mem_dedup, List.mem_map]
  · intro h
    unfold get_months
    rw [h]
    rfl

theorem C4_witness : get_months emptyDB = [] :=
  (C4_get_months_sorted_distinct emptyDB).2.2.2 rfl

/-- C5: `list_entries_for_month(M)` returns exactly the projections of the
rows whose stored `month_name` equals `M` (a permutation of the filtered
table), sorted ascending by `work_date`; a month matching no row yields the
empty list. -/
theorem C5_entries_for_month (M : String) (db : DB) :
    (get_timesheet_by_month M db).Perm
      ((db.rows.filter (fun r => r.month_name == M)).map
        (fun r => (r.work_date, r.hours_worked, r.month_name))) ∧
    (get_timesheet_by_month M db).Sorted (fun a b => a.1 ≤ b.1) ∧
    (∀ t ∈ get_timesheet_by_month M db, t.2.2 = M) ∧
    ((∀ r ∈ db.rows, r.month_name ≠ M) → get_timesheet_by_month M db = []) := by
  refine ⟨(List.perm_insertionSort _ _).map _, ?_, ?_, ?_⟩
  · unfold get_timesheet_by_month
    rw [List.Sorted, List.pairwise_map]
    exact List.sorted_insertionSort byDate _
  · intro t ht
    obtain ⟨r, hr, hrt⟩ := List.mem_map.mp ht
    have hr' : r ∈ db.rows.filter (fun x => x.month_name == M) :=
      (List.mem_insertionSort _).mp hr
    obtain ⟨-, hb⟩ := List.mem_filter.mp hr'
    rw [← hrt]
    exact eq_of_beq hb
  · intro hnone
    unfold get_timesheet_by_month
    have hfil : db.rows.filter (fun r => r.month_name == M) = [] :=
      List.filter_eq_nil_iff.mpr fun r hrr => by simp [hnone r hrr]
    rw [hfil]
    rfl

theorem C5_witness :
    (∀ r ∈ (upsert_entry ⟨2024, 1, 5⟩ 8 emptyDB).rows, r.month_name ≠ "February") ∧
    get_timesheet_by_month "February" (upsert_entry ⟨2024, 1, 5⟩ 8 emptyDB) = [] :=
  ⟨by decide,
    (C5_entries_for_month "February" (upsert_entry ⟨2024, 1, 5⟩ 8 emptyDB)).2.2.2 (by decide)⟩

/-- C6: `get_hours(D)` returns the default 0.0 when no row stores `D`
(a miss is not an error), and returns the stored `hours_worked` of the row
for `D` when one exists (dates being unique per the schema). -/
theorem C6_get_hours_default_or_stored (db : DB) (ds : String) :
    ((∀ r ∈ db.rows, r.work_date ≠ ds) → get_hours_for_date ds db = 0) ∧
    (∀ r ∈ db.rows, datesUnique db → r.work_date = ds →
      get_hours_for_date ds db = r.hours_worked) := by
  constructor
  · intro hmiss
    unfold get_hours_for_date
    have hnone : db.rows.find? (fun r => r.work_date == ds) = none :=
      List.find?_eq_none.mpr fun x hx => by simp [hmiss x hx]
    rw [hnone]
  · intro r hr hu hwd
    subst hwd
    unfold get_hours_for_date
    rw [find?_row_of_nodup hu hr]

theorem C6_witness :
    get_hours_for_date "2099-12-31" (upsert_entry ⟨2024, 1, 5⟩ 8 emptyDB) = 0 ∧
    get_hours_for_date "2024-01-05" (upsert_entry ⟨2024, 1, 5⟩ 8 emptyDB) = 8 :=
  ⟨(C6_get_hours_default_or_stored (upsert_entry ⟨2024, 1, 5⟩ 8 emptyDB)
      "2099-12-31").1 (by decide),
    (C6_get_hours_default_or_stored (upsert_entry ⟨2024, 1, 5⟩ 8 emptyDB)
      "2024-01-05").2 ⟨1, "2024-01-05", 8, "January"⟩ (by decide) (by decide) rfl⟩

/-- C7: with the UI's non-negative hours input (`min_value=0.0`, line 191),
both write operations keep every stored `hours_worked` non-negative. -/
theorem C7_writes_preserve_nonneg_hours (db : DB) (hdb : nonNegHours db) :
    (∀ (D : Date) (H : ℚ), 0 ≤ H → nonNegHours (upsert_entry D H db)) ∧
    (∀ (ds : String) (H : ℚ) (db' : DB), 0 ≤ H →
      update_hours_for_date ds H db = some db' → nonNegHours db') := by
  constructor
  · intro D H hH r hr
    rcases mem_add_data hr with ⟨_, hhw, _⟩ | hold
    · rw [hhw]; exact hH
    · exact hdb r hold
  · intro ds H db' hH hup r hr
    obtain ⟨dt, _, hrows, _⟩ := update_rows_cases hup
    rw [hrows] at hr
    obtain ⟨a, ha, hfa⟩ := List.mem_map.mp hr
    by_cases hc : (a.work_date == ds) = true
    · rw [if_pos hc] at hfa
      subst hfa
      exact hH
    · rw [if_neg hc] at hfa
      subst hfa
      exact hdb a ha

theorem C7_witness :
    nonNegHours emptyDB ∧ (0 : ℚ) ≤ 8 ∧
    nonNegHours (upsert_entry ⟨2024, 1, 5⟩ 8 emptyDB) := by
  have hempty : nonNegHours emptyDB := fun r hr => absurd hr (List.not_mem_nil r)
  exact ⟨hempty, by norm_num,
    (C7_writes_preserve_nonneg_hours emptyDB hempty).1 ⟨2024, 1, 5⟩ 8 (by norm_num)⟩

/-- C8: from a logged-out session, logging in with username
`"raisediversity"` and the environment password transitions to logged-in
with edit access and no error; any other combination leaves the session
unchanged (still logged out) and surfaces an error. -/
theorem C8_login_transition (env u p : String) (s : Session)
    (hs : s.logged_in = false) :
    ((u = "raisediversity" ∧ p = env) →
      login env u p s =
        ({ logged_in := true, username := some u, has_edit_access := true }, false)) ∧
    (¬(u = "raisediversity" ∧ p = env) →
      login env u p s = (s, true) ∧ (login env u p s).1.logged_in = false) := by
  constructor
  · rintro ⟨hu, hp⟩
    subst hu
    subst hp
    simp [login]
  · intro hne
    have hcond : (u == "raisediversity" && p == env) = false := by
      by_cases hu : u = "raisediversity"
      · have hp : p ≠ env := fun hp => hne ⟨hu, hp⟩
        simp [hu, hp]
      · simp [hu]
    refine ⟨?_, ?_⟩ <;> simp [login, hcond, hs]

theorem C8_witness :
    login "secret" "raisediversity" "secret" initSession =
      ({ logged_in := true, username := some "raisediversity",
         has_edit_access := true }, false) ∧
    login "secret" "raisediversity" "wrong" initSession = (initSession, true) := by
  refine ⟨(C8_login_transition "secret" "raisediversity" "secret" initSession rfl).1
      ⟨rfl, rfl⟩,
    ((C8_login_transition "secret" "raisediversity" "wrong" initSession rfl).2 ?_).1⟩
  rintro ⟨-, hp⟩
  exact absurd hp (by decide)

/-- C9: if the `TIMESHEET_PASSWORD` environment variable is absent (`None`)
or empty, startup halts (`st.stop()`) before any view is served. -/
theorem C9_startup_halts_without_password (env : Option String)
    (h : env = none ∨ env = some "") : startup env = .halt := by
  rcases h with h | h <;> subst h <;> decide

theorem C9_witness : startup (some "") = .halt :=
  C9_startup_halts_without_password (some "") (Or.inr rfl)

/-- C10: when the upsert replaces the existing row of a date, the replacing
insert reuses the id the subquery selected from that row, so the surviving
row for the date keeps its surrogate id. -/
theorem C10_upsert_preserves_id (D : Date) (H : ℚ) (db : DB)
    (hu : datesUnique db) (r : Row) (hr : r ∈ db.rows)
    (hwd : r.work_date = formatDate D) :
    (upsert_entry D H db).rows.find? (fun x => x.work_date == formatDate D) =
      some ⟨r.id, formatDate D, H, monthName D.month⟩ := by
  unfold upsert_entry add_data
  have hfind : db.rows.find? (fun x => x.work_date == formatDate D) = some r := by
    have h := find?_row_of_nodup hu hr
    rwa [hwd] at h
  rw [hfind]
  refine find?_insertById (by simp) ?_
  intro x hx
  have h := List.of_mem_filter hx
  simp only [Bool.and_eq_true, Bool.not_eq_true'] at h
  exact h.1

theorem C10_witness :
    (upsert_entry ⟨2024, 1, 5⟩ (13/2) (upsert_entry ⟨2024, 1, 5⟩ 8 emptyDB)).rows.find?
      (fun x => x.work_date == formatDate ⟨2024, 1, 5⟩) =
      some ⟨1, formatDate ⟨2024, 1, 5⟩, 13/2, monthName 1⟩ :=
  C10_upsert_preserves_id ⟨2024, 1, 5⟩ (13/2) (upsert_entry ⟨2024, 1, 5⟩ 8 emptyDB)
    (by decide) ⟨1, "2024-01-05", 8, "January"⟩ (by decide) (by decide)

end Timesheet
